import Mathlib

/-!
Verification of the tectonic I/O core (src/digest.rs and src/io/mod.rs)
against its natural-language specification.

Modelling conventions:
- Rust `u8` values are Lean `Nat` values; theorems carry `< 256` bounds
  where the value range matters.
- Rust strings are modelled as `List Char`; the inputs exercised here are
  ASCII, where byte indexing and character indexing coincide.
- The fast-digest accumulator is opaque in the source (an `update`/`finalize`
  black box), so it is modelled as the exact sequence of bytes fed into it:
  two accumulator states are equal iff they were fed the same byte sequence,
  and the finalized fingerprint of a state is that byte list.
- The boxed `dyn InputFeatures` byte source behind an `InputHandle` is
  modelled as an arbitrary state type `sigma` together with a `StreamOps`
  record of its `read`/`try_seek`/`get_size` methods.  `Cursor (Vec u8)`
  from the source gets a concrete instance.
- Fallible operations return `Except`; error payloads are reduced to tags.
-/

/-- Error tags for the fallible operations modelled here. -/
inductive IoErr : Type
  | eof
  | ungetcTwice
  | seekNegative
  | cannotSaveFormats
  | other
deriving DecidableEq, Repr

/-- Model of `std::io::SeekFrom`: `Start(u64)`, `End(i64)`, `Current(i64)`. -/
inductive SeekFrom : Type
  | start (n : Nat)
  | fromEnd (n : Int)
  | current (n : Int)
deriving DecidableEq, Repr

deriving instance DecidableEq for Except

/- ===================== digest.rs : hex codec ===================== -/

/-- One lowercase hex digit, as produced by the `{:02x}` formatter in
`bytes_to_hex` for a value in `0..16`. -/
def hexDigitChar : Nat → Char
  | 0 => '0' | 1 => '1' | 2 => '2' | 3 => '3'
  | 4 => '4' | 5 => '5' | 6 => '6' | 7 => '7'
  | 8 => '8' | 9 => '9' | 10 => 'a' | 11 => 'b'
  | 12 => 'c' | 13 => 'd' | 14 => 'e' | 15 => 'f'
  | _ => '0'

/-- `format!("\x7b:02x\x7d", b)` for a `u8` value: exactly two lowercase hex
digits. -/
def byteToHex (b : Nat) : List Char :=
  [hexDigitChar (b / 16), hexDigitChar (b % 16)]

/-- `bytes_to_hex` from src/digest.rs: map each byte to its two-digit
lowercase hex form and concatenate. -/
def bytes_to_hex (bytes : List Nat) : List Char :=
  List.flatten (bytes.map byteToHex)

/-- The numeric value of a hex digit accepted by `from_str_radix(_, 16)`:
`0-9`, `a-f` and `A-F` (case-insensitive input). -/
def hexDigitVal (c : Char) : Option Nat :=
  if '0' ≤ c ∧ c ≤ '9' then some (c.toNat - 48)
  else if 'a' ≤ c ∧ c ≤ 'f' then some (c.toNat - 87)
  else if 'A' ≤ c ∧ c ≤ 'F' then some (c.toNat - 55)
  else none

/-- Digit-accumulation loop of `u8::from_str_radix(_, 16)`: fold hex digits
into an accumulator, failing on a non-digit or on overflow past `u8::MAX`. -/
def parseHexDigitsU8 : List Char → Nat → Option Nat
  | [], acc => some acc
  | c :: cs, acc =>
    match hexDigitVal c with
    | none => none
    | some d => if acc * 16 + d ≤ 255 then parseHexDigitsU8 cs (acc * 16 + d) else none

/-- `u8::from_str_radix(s, 16)`: an empty string is an error; a leading `+`
sign is consumed (a `-` is not a valid digit for an unsigned type); the
remaining characters must be a nonempty run of hex digits whose value fits
in a `u8`. -/
def fromStrRadix16U8 (s : List Char) : Option Nat :=
  match s with
  | [] => none
  | '+' :: rest => if rest = [] then none else parseHexDigitsU8 rest 0
  | _ => parseHexDigitsU8 s 0

/-- Error kinds of `hex_to_bytes`: `ErrorKind::BadLength(expected, got)` for
the length check, and the `ParseIntError` propagated from
`u8::from_str_radix`. -/
inductive HexError : Type
  | badLength (expected got : Nat)
  | parseInt
deriving DecidableEq, Repr

/-- The 2-character groups `&text[i*2..(i+1)*2]` consumed by the decode
loop, in order. -/
def chunkPairs : List Char → List (Char × Char)
  | c1 :: c2 :: r => (c1, c2) :: chunkPairs r
  | _ => []

/-- The `for i in 0..n` loop of `hex_to_bytes`: decode one 2-character group
per destination byte, stopping (with the destination prefix already
overwritten) at the first group `from_str_radix` rejects.  The final
catch-all arm is unreachable under the length precheck. -/
def hexWriteLoop : List Char → List Nat → Except HexError Unit × List Nat
  | _, [] => (Except.ok (), [])
  | c1 :: c2 :: tr, d :: dr =>
    match fromStrRadix16U8 [c1, c2] with
    | none => (Except.error HexError.parseInt, d :: dr)
    | some b =>
      match hexWriteLoop tr dr with
      | (res, dr2) => (res, b :: dr2)
  | _, d :: dr => (Except.error HexError.parseInt, d :: dr)

/-- `hex_to_bytes` from src/digest.rs: the destination buffer is threaded
explicitly, and the returned pair is (call result, final destination
contents). -/
def hex_to_bytes (text : List Char) (dest : List Nat) : Except HexError Unit × List Nat :=
  if text.length ≠ 2 * dest.length then
    (Except.error (HexError.badLength (2 * dest.length) text.length), dest)
  else
    hexWriteLoop text dest

/- ===================== io/mod.rs : path normalizer ===================== -/

/-- Rust `str::split(sep char)` semantics on a character list: the list of
(possibly empty) segments between separators.  An empty input yields one
empty segment; a trailing separator yields a trailing empty segment. -/
def splitSlash : List Char → List (List Char)
  | [] => [[]]
  | '/' :: cs => [] :: splitSlash cs
  | c :: cs =>
    match splitSlash cs with
    | s :: ss => (c :: s) :: ss
    | [] => [[c]]

/-- `Vec::join("/")` on character-list segments. -/
def intercalateSlash : List (List Char) → List Char
  | [] => []
  | [s] => s
  | s :: rest => s ++ '/' :: intercalateSlash rest

/-- The `for (i, c) in path.split(slash).enumerate()` loop of
`try_normalize_tex_path`.  State: retained segments `r` (pushed and popped
at the back, like the source `Vec`), the leading go-up counter
`parent_level`, and the `has_root` flag.  Popping the root sentinel (the
empty segment pushed at index 0) aborts the whole normalization. -/
def normLoop : List (List Char) → Nat → List (List Char) → Nat → Bool →
    Option (List (List Char) × Nat × Bool)
  | [], _, r, parent_level, has_root => some (r, parent_level, has_root)
  | c :: cs, i, r, parent_level, has_root =>
    if c = [] ∧ i = 0 then
      normLoop cs (i + 1) (r ++ [[]]) parent_level true
    else if c = [] ∨ c = ['.'] then
      normLoop cs (i + 1) r parent_level has_root
    else if c = ['.', '.'] then
      match r.getLast? with
      | some [] => none
      | none => normLoop cs (i + 1) r (parent_level + 1) has_root
      | some _ => normLoop cs (i + 1) r.dropLast parent_level has_root
    else
      normLoop cs (i + 1) (r ++ [c]) parent_level has_root

/-- `try_normalize_tex_path` from src/io/mod.rs, on the character list of
the path. -/
def try_normalize_tex_path (path : List Char) : Option (List Char) :=
  if path = [] then some []
  else
    match normLoop (splitSlash path) 0 [] 0 false with
    | none => none
    | some (r, parent_level, has_root) =>
      let r2 := intercalateSlash (List.replicate parent_level ['.', '.'] ++ r)
      if r2 = [] then
        if has_root then some (String.toList "/") else some (String.toList ".")
      else
        some r2

/- ===================== io/mod.rs : InputHandle ===================== -/

/-- `InputOrigin` from src/io/mod.rs. -/
inductive InputOrigin : Type
  | filesystem
  | notInput
  | other
deriving DecidableEq, Repr

/-- The `dyn InputFeatures` trait object behind a handle: a state type
`σ` with the trait methods.  `read s n` models `Read::read` into a buffer
of length `n` and returns the bytes actually delivered; `read_le` is the
`Read` contract that the reported count never exceeds the buffer length
(the source would index out of bounds otherwise). -/
structure StreamOps (σ : Type) where
  read : σ → Nat → σ × Except IoErr (List Nat)
  seek : σ → SeekFrom → σ × Except IoErr Nat
  get_size : σ → σ × Except IoErr Nat
  read_le : ∀ s n s2 bs, read s n = (s2, Except.ok bs) → bs.length ≤ n

/-- `InputHandle` from src/io/mod.rs.  The digest accumulator is the list
of bytes fed into it so far; the finalized `FastDigestData` of an
accumulator state is that list itself. -/
structure InputHandle (σ : Type) where
  name : String
  inner : σ
  read_only : Bool
  digest : List Nat
  origin : InputOrigin
  ever_read : Bool
  did_unhandled_seek : Bool
  ungetc_char : Option Nat
deriving DecidableEq, Repr

/-- The finalized fingerprint of the freshly-initialized accumulator:
`FastDigestData::of_nothing()`. -/
def fastDigestOfNothing : List Nat := []

/-- `InputHandle::new`. -/
def InputHandle.new (name : String) (inner : σ) (origin : InputOrigin) : InputHandle σ :=
  { name := name, inner := inner, read_only := false, digest := [],
    origin := origin, ever_read := false, did_unhandled_seek := false,
    ungetc_char := none }

/-- `InputHandle::new_read_only`. -/
def InputHandle.new_read_only (name : String) (inner : σ) (origin : InputOrigin) :
    InputHandle σ :=
  { name := name, inner := inner, read_only := true, digest := [],
    origin := origin, ever_read := false, did_unhandled_seek := false,
    ungetc_char := none }

/-- `InputHandle::into_name_digest`. -/
def InputHandle.into_name_digest (h : InputHandle σ) : String × Option (List Nat) :=
  if h.did_unhandled_seek || !h.ever_read || h.read_only then
    (h.name, none)
  else
    (h.name, some h.digest)

/-- `InputHandle::ungetc`. -/
def InputHandle.ungetc (h : InputHandle σ) (byte : Nat) : InputHandle σ × Except IoErr Unit :=
  if h.ungetc_char.isSome then
    (h, Except.error IoErr.ungetcTwice)
  else
    ({ h with ungetc_char := some byte }, Except.ok ())

/-- The fall-through body of `Read::read for InputHandle` (reached when
there is no pending pushback byte or the buffer is empty): set `ever_read`,
read from the underlying source, and fold the delivered bytes into the
digest unless the handle is read-only.  On an inner error the `?` operator
propagates it, with `ever_read` already set and the digest untouched. -/
def readNoUngetc (ops : StreamOps σ) (h : InputHandle σ) (bufLen : Nat) :
    InputHandle σ × Except IoErr (List Nat) :=
  match ops.read h.inner bufLen with
  | (s2, Except.error e) => ({ h with ever_read := true, inner := s2 }, Except.error e)
  | (s2, Except.ok bs) =>
    let d2 := if h.read_only then h.digest else h.digest ++ bs
    ({ h with ever_read := true, inner := s2, digest := d2 }, Except.ok bs)

/-- `Read::read for InputHandle`: with a nonempty buffer and a pending
pushback byte, deliver that byte first, clear the slot, and recurse on the
rest of the buffer (the recursive portion alone updates the digest);
otherwise the fall-through body runs. -/
def InputHandle.read (ops : StreamOps σ) :
    InputHandle σ → Nat → InputHandle σ × Except IoErr (List Nat)
  | h, Nat.succ n =>
    match h.ungetc_char with
    | some c =>
      match InputHandle.read ops { h with ungetc_char := none } n with
      | (h2, Except.ok bs) => (h2, Except.ok (c :: bs))
      | (h2, Except.error e) => (h2, Except.error e)
    | none => readNoUngetc ops h (Nat.succ n)
  | h, 0 => readNoUngetc ops h 0

/-- `InputHandle::getc`: consume a pending pushback byte without touching
any other state; otherwise a 1-byte read, turning a zero-byte result into
an end-of-stream error. -/
def InputHandle.getc (ops : StreamOps σ) (h : InputHandle σ) :
    InputHandle σ × Except IoErr Nat :=
  match h.ungetc_char with
  | some c => ({ h with ungetc_char := none }, Except.ok c)
  | none =>
    match InputHandle.read ops h 1 with
    | (h2, Except.ok []) => (h2, Except.error IoErr.eof)
    | (h2, Except.ok (b :: _)) => (h2, Except.ok b)
    | (h2, Except.error e) => (h2, Except.error e)

/-- The `match pos` state update at the head of `InputHandle::try_seek`:
`Start(0)` resets the digest, clears `ever_read` and drops the pushback
byte; `Current(0)` is a no-op; everything else marks the unhandled seek and
drops the pushback byte. -/
def seekUpdate (h : InputHandle σ) (pos : SeekFrom) : InputHandle σ :=
  match pos with
  | SeekFrom.start 0 =>
    { h with digest := [], ever_read := false, ungetc_char := none }
  | SeekFrom.current 0 => h
  | _ =>
    { h with did_unhandled_seek := true, ungetc_char := none }

/-- `InputFeatures::try_seek for InputHandle`: apply the state update,
delegate to the underlying source, and if a pushback byte is still pending
report the underlying offset minus one (`u64` wrapping subtraction). -/
def InputHandle.try_seek (ops : StreamOps σ) (h : InputHandle σ) (pos : SeekFrom) :
    InputHandle σ × Except IoErr Nat :=
  let h1 := seekUpdate h pos
  match ops.seek h1.inner pos with
  | (s2, Except.error e) => ({ h1 with inner := s2 }, Except.error e)
  | (s2, Except.ok offset) =>
    let offset2 := if h1.ungetc_char.isSome then (offset + (2 ^ 64 - 1)) % 2 ^ 64 else offset
    ({ h1 with inner := s2 }, Except.ok offset2)

/-- `InputFeatures::get_size for InputHandle`: pure delegation. -/
def InputHandle.get_size (ops : StreamOps σ) (h : InputHandle σ) :
    InputHandle σ × Except IoErr Nat :=
  match ops.get_size h.inner with
  | (s2, r) => ({ h with inner := s2 }, r)

/-- One public operation on an `InputHandle`. -/
inductive HandleOp : Type
  | read (bufLen : Nat)
  | getc
  | ungetc (byte : Nat)
  | seek (pos : SeekFrom)
  | getSize
deriving DecidableEq, Repr

/-- The handle state after one operation. -/
def applyOp (ops : StreamOps σ) (h : InputHandle σ) : HandleOp → InputHandle σ
  | HandleOp.read n => (InputHandle.read ops h n).1
  | HandleOp.getc => (InputHandle.getc ops h).1
  | HandleOp.ungetc b => (InputHandle.ungetc h b).1
  | HandleOp.seek pos => (InputHandle.try_seek ops h pos).1
  | HandleOp.getSize => (InputHandle.get_size ops h).1

/-- The handle state after a sequence of operations. -/
def runOps (ops : StreamOps σ) : InputHandle σ → List HandleOp → InputHandle σ
  | h, [] => h
  | h, op :: l => runOps ops (applyOp ops h op) l

/-- A sequence of `read` calls with the given buffer lengths; returns the
final handle and the concatenation of all bytes delivered by the
successful calls. -/
def runReads (ops : StreamOps σ) : InputHandle σ → List Nat → InputHandle σ × List Nat
  | h, [] => (h, [])
  | h, n :: ns =>
    match InputHandle.read ops h n with
    | (h1, Except.ok bs) =>
      match runReads ops h1 ns with
      | (h2, rest) => (h2, bs ++ rest)
    | (h1, Except.error _) => runReads ops h1 ns

/- `Cursor (Vec u8)` with its `InputFeatures` impl from src/io/mod.rs:
state is (backing bytes, position). -/

/-- `Read::read for Cursor (Vec u8)`: deliver up to `n` bytes from the
current position. -/
def cursorRead : List Nat × Nat → Nat → (List Nat × Nat) × Except IoErr (List Nat)
  | (data, pos), n =>
    let bs := (data.drop pos).take n
    ((data, pos + bs.length), Except.ok bs)

/-- `Seek::seek for Cursor`: absolute, end-relative and current-relative
positioning, failing on a negative target position. -/
def cursorSeek : List Nat × Nat → SeekFrom → (List Nat × Nat) × Except IoErr Nat
  | (data, _), SeekFrom.start k => ((data, k), Except.ok k)
  | (data, pos), SeekFrom.current d =>
    let np : Int := (pos : Int) + d
    if 0 ≤ np then ((data, np.toNat), Except.ok np.toNat)
    else ((data, pos), Except.error IoErr.seekNegative)
  | (data, pos), SeekFrom.fromEnd d =>
    let np : Int := (data.length : Int) + d
    if 0 ≤ np then ((data, np.toNat), Except.ok np.toNat)
    else ((data, pos), Except.error IoErr.seekNegative)

/-- `InputFeatures::get_size for Cursor (Vec u8)`: the backing length. -/
def cursorGetSize : List Nat × Nat → (List Nat × Nat) × Except IoErr Nat
  | (data, pos) => ((data, pos), Except.ok data.length)

/-- The `StreamOps` instance for `Cursor (Vec u8)`. -/
def cursorOps : StreamOps (List Nat × Nat) where
  read := cursorRead
  seek := cursorSeek
  get_size := cursorGetSize
  read_le := by
    intro s n s2 bs hread
    match s with
    | (data, pos) =>
      simp only [cursorRead, Prod.mk.injEq, Except.ok.injEq] at hread
      have : bs = (data.drop pos).take n := hread.2.symm
      subst this
      exact List.length_take_le n (data.drop pos)

/- ===================== io/mod.rs : IoProvider ===================== -/

/-- `OpenResult` from src/io/mod.rs. -/
inductive OpenResult (T : Type) : Type
  | ok (t : T)
  | notAvailable
  | err (e : IoErr)
deriving DecidableEq, Repr

/-- The `IoProvider` trait: a record of its methods over a provider state
`π`, an input-handle type `ι` and an output-handle type `ω`.  Each Lean
field default is the corresponding Rust default method body: the four
plain open methods answer not-available, `input_open_format` delegates to
`input_open_name`, and `write_format` returns the cannot-save-formats
error.  (The `StatusBackend` argument is a pure diagnostics sink and is
omitted.) -/
structure IoProvider (π ι ω : Type) where
  output_open_name : π → String → π × OpenResult ω :=
    fun p _ => (p, OpenResult.notAvailable)
  output_open_stdout : π → π × OpenResult ω :=
    fun p => (p, OpenResult.notAvailable)
  input_open_name : π → String → π × OpenResult ι :=
    fun p _ => (p, OpenResult.notAvailable)
  input_open_primary : π → π × OpenResult ι :=
    fun p => (p, OpenResult.notAvailable)
  input_open_format : π → String → π × OpenResult ι :=
    fun p n => input_open_name p n
  write_format : π → String → List Nat → π × Except IoErr Unit :=
    fun p _ _ => (p, Except.error IoErr.cannotSaveFormats)

/-- A concrete backend that implements none of the trait methods: every
field keeps its default. -/
def defaultedProvider (π ι ω : Type) : IoProvider π ι ω := {}

/- ===================== helper lemmas : hex codec ===================== -/

theorem bytes_to_hex_cons (x : Nat) (b : List Nat) :
    bytes_to_hex (x :: b) = byteToHex x ++ bytes_to_hex b := rfl

theorem bytes_to_hex_length (b : List Nat) : (bytes_to_hex b).length = 2 * b.length := by
  induction b with
  | nil => rfl
  | cons x b ih =>
    rw [bytes_to_hex_cons, List.length_append, ih]
    simp only [byteToHex, List.length_cons, List.length_nil, List.length_cons]
    omega

set_option maxRecDepth 10000 in
theorem fromStrRadix_byteToHex (x : Nat) (hx : x < 256) :
    fromStrRadix16U8 (byteToHex x) = some x := by
  have h : ∀ y : Fin 256, fromStrRadix16U8 (byteToHex y.val) = some y.val := by decide
  exact h ⟨x, hx⟩

theorem hexWriteLoop_roundtrip : ∀ (b dest : List Nat),
    (∀ x ∈ b, x < 256) → dest.length = b.length →
    hexWriteLoop (bytes_to_hex b) dest = (Except.ok (), b) := by
  intro b
  induction b with
  | nil =>
    intro dest _ hlen
    have hd : dest = [] := List.eq_nil_of_length_eq_zero hlen
    subst hd
    rfl
  | cons x b ih =>
    intro dest hall hlen
    rcases dest with _ | ⟨d, dr⟩
    · simp at hlen
    · have hx : x < 256 := hall x (List.mem_cons_self x b)
      have hkey : fromStrRadix16U8 [hexDigitChar (x / 16), hexDigitChar (x % 16)] = some x :=
        fromStrRadix_byteToHex x hx
      have hrec := ih dr (fun y hy => hall y (List.mem_cons_of_mem x hy)) (by simpa using hlen)
      rw [bytes_to_hex_cons]
      show hexWriteLoop
          (hexDigitChar (x / 16) :: hexDigitChar (x % 16) :: bytes_to_hex b) (d :: dr) = _
      unfold hexWriteLoop
      rw [hkey, hrec]

/-- The decode loop fails with the parse error exactly when some aligned
2-character group is rejected by `from_str_radix`, provided the text has
the length the precheck enforces. -/
theorem hexWriteLoop_result : ∀ (dest : List Nat) (text : List Char),
    text.length = 2 * dest.length →
    (hexWriteLoop text dest).1 =
      (if (chunkPairs text).any (fun p => (fromStrRadix16U8 [p.1, p.2]).isNone) then
        Except.error HexError.parseInt
      else Except.ok ()) := by
  intro dest
  induction dest with
  | nil =>
    intro text hlen
    have ht : text = [] := List.eq_nil_of_length_eq_zero (by simpa using hlen)
    subst ht
    rfl
  | cons d dr ih =>
    intro text hlen
    rcases text with _ | ⟨c1, text⟩
    · simp at hlen
    rcases text with _ | ⟨c2, tr⟩
    · simp [List.length_cons] at hlen
      omega
    have htr : tr.length = 2 * dr.length := by
      simp only [List.length_cons] at hlen
      omega
    have hrec := ih tr htr
    show (hexWriteLoop (c1 :: c2 :: tr) (d :: dr)).1 = _
    unfold hexWriteLoop
    rcases hp : fromStrRadix16U8 [c1, c2] with _ | b
    · simp [chunkPairs, hp]
    · rcases hwl : hexWriteLoop tr dr with ⟨res, dr2⟩
      rw [hwl] at hrec
      have hcp : (chunkPairs (c1 :: c2 :: tr)).any
            (fun p => (fromStrRadix16U8 [p.1, p.2]).isNone) =
          (chunkPairs tr).any (fun p => (fromStrRadix16U8 [p.1, p.2]).isNone) := by
        show ((fromStrRadix16U8 [c1, c2]).isNone ||
          (chunkPairs tr).any (fun p => (fromStrRadix16U8 [p.1, p.2]).isNone)) = _
        rw [hp]
        rfl
      show res = _
      rw [hcp]
      exact hrec

/- ===================== helper lemmas : path normalizer ===================== -/

theorem normLoop_dots : ∀ (cs : List (List Char)) (i : Nat),
    (∀ s ∈ cs, s = [] ∨ s = ['.']) →
    normLoop cs (i + 1) [] 0 false = some ([], 0, false) := by
  intro cs
  induction cs with
  | nil => intro i _; rfl
  | cons c cs ih =>
    intro i hall
    have hc : c = [] ∨ c = ['.'] := hall c (List.mem_cons_self c cs)
    have h1 : ¬(c = [] ∧ i + 1 = 0) := by
      rintro ⟨-, h0⟩
      exact Nat.succ_ne_zero i h0
    show normLoop (c :: cs) (i + 1) [] 0 false = _
    unfold normLoop
    rw [if_neg h1, if_pos hc]
    exact ih (i + 1) (fun s hs => hall s (List.mem_cons_of_mem c hs))

/- ===================== helper lemmas : handle machine ===================== -/

theorem seekUpdate_inner (h : InputHandle σ) (pos : SeekFrom) :
    (seekUpdate h pos).inner = h.inner := by
  unfold seekUpdate
  split <;> rfl

theorem seekUpdate_start_zero (h : InputHandle σ) :
    seekUpdate h (SeekFrom.start 0) =
      { h with digest := [], ever_read := false, ungetc_char := none } := rfl

theorem seekUpdate_current_zero (h : InputHandle σ) :
    seekUpdate h (SeekFrom.current 0) = h := rfl

theorem seekUpdate_other (h : InputHandle σ) (pos : SeekFrom)
    (h1 : pos ≠ SeekFrom.start 0) (h2 : pos ≠ SeekFrom.current 0) :
    seekUpdate h pos = { h with did_unhandled_seek := true, ungetc_char := none } := by
  unfold seekUpdate
  split
  · exact absurd rfl h1
  · exact absurd rfl h2
  · rfl

theorem try_seek_fst (ops : StreamOps σ) (h : InputHandle σ) (pos : SeekFrom) :
    (InputHandle.try_seek ops h pos).1 =
      { seekUpdate h pos with inner := (ops.seek h.inner pos).1 } := by
  simp only [InputHandle.try_seek, seekUpdate_inner]
  rcases hs : ops.seek h.inner pos with ⟨s2, r⟩
  cases r <;> simp

theorem read_zero (ops : StreamOps σ) (h : InputHandle σ) :
    InputHandle.read ops h 0 = readNoUngetc ops h 0 := rfl

theorem read_none (ops : StreamOps σ) (h : InputHandle σ) (n : Nat)
    (hu : h.ungetc_char = none) : InputHandle.read ops h n = readNoUngetc ops h n := by
  cases n with
  | zero => rfl
  | succ n =>
    conv_lhs => unfold InputHandle.read
    rw [hu]

theorem readNoUngetc_ok (ops : StreamOps σ) (h : InputHandle σ) (n : Nat) (s2 : σ)
    (bs : List Nat) (hr : ops.read h.inner n = (s2, Except.ok bs)) :
    readNoUngetc ops h n =
      ({ h with ever_read := true, inner := s2, digest := if h.read_only then h.digest else h.digest ++ bs }, Except.ok bs) := by
  unfold readNoUngetc
  rw [hr]

theorem readNoUngetc_err (ops : StreamOps σ) (h : InputHandle σ) (n : Nat) (s2 : σ)
    (e : IoErr) (hr : ops.read h.inner n = (s2, Except.error e)) :
    readNoUngetc ops h n =
      ({ h with ever_read := true, inner := s2 }, Except.error e) := by
  unfold readNoUngetc
  rw [hr]

/-- `read` never touches `did_unhandled_seek`, `read_only` or the name. -/
theorem read_fst_preserved (ops : StreamOps σ) : ∀ (n : Nat) (h : InputHandle σ),
    ((InputHandle.read ops h n).1).did_unhandled_seek = h.did_unhandled_seek ∧
    ((InputHandle.read ops h n).1).read_only = h.read_only ∧
    ((InputHandle.read ops h n).1).name = h.name := by
  intro n
  induction n with
  | zero =>
    intro h
    rw [read_zero]
    unfold readNoUngetc
    rcases hr : ops.read h.inner 0 with ⟨s2, r⟩
    cases r <;> simp
  | succ n ih =>
    intro h
    rcases hu : h.ungetc_char with _ | c
    · rw [read_none ops h (Nat.succ n) hu]
      unfold readNoUngetc
      rcases hr : ops.read h.inner (Nat.succ n) with ⟨s2, r⟩
      cases r <;> simp
    · have hrw : InputHandle.read ops h (Nat.succ n) =
          (match InputHandle.read ops { h with ungetc_char := none } n with
            | (h2, Except.ok bs) => (h2, Except.ok (c :: bs))
            | (h2, Except.error e) => (h2, Except.error e)) := by
        conv_lhs => unfold InputHandle.read
        rw [hu]
      rw [hrw]
      rcases hr : InputHandle.read ops { h with ungetc_char := none } n with ⟨h2, r⟩
      have hprev := ih { h with ungetc_char := none }
      rw [hr] at hprev
      cases r <;> simpa using hprev

theorem getc_fst_preserved (ops : StreamOps σ) (h : InputHandle σ) :
    ((InputHandle.getc ops h).1).did_unhandled_seek = h.did_unhandled_seek := by
  unfold InputHandle.getc
  rcases hu : h.ungetc_char with _ | c
  · rcases hr : InputHandle.read ops h 1 with ⟨h2, r⟩
    have hprev := (read_fst_preserved ops 1 h).1
    rw [hr] at hprev
    rcases r with e | bs
    · simpa using hprev
    · rcases bs with _ | ⟨b, bs⟩ <;> simpa using hprev
  · simp

theorem ungetc_fst_preserved (h : InputHandle σ) (b : Nat) :
    ((InputHandle.ungetc h b).1).did_unhandled_seek = h.did_unhandled_seek := by
  unfold InputHandle.ungetc
  split <;> simp

theorem get_size_fst_preserved (ops : StreamOps σ) (h : InputHandle σ) :
    ((InputHandle.get_size ops h).1).did_unhandled_seek = h.did_unhandled_seek := by
  unfold InputHandle.get_size
  rcases hg : ops.get_size h.inner with ⟨s2, r⟩
  simp

theorem seekUpdate_dus_mono (h : InputHandle σ) (pos : SeekFrom)
    (hd : h.did_unhandled_seek = true) : (seekUpdate h pos).did_unhandled_seek = true := by
  unfold seekUpdate
  split <;> simp [hd]

theorem applyOp_dus_mono (ops : StreamOps σ) (h : InputHandle σ) (op : HandleOp)
    (hd : h.did_unhandled_seek = true) :
    (applyOp ops h op).did_unhandled_seek = true := by
  cases op with
  | read n => show ((InputHandle.read ops h n).1).did_unhandled_seek = true
              rw [(read_fst_preserved ops n h).1, hd]
  | getc => show ((InputHandle.getc ops h).1).did_unhandled_seek = true
            rw [getc_fst_preserved ops h, hd]
  | ungetc b => show ((InputHandle.ungetc h b).1).did_unhandled_seek = true
                rw [ungetc_fst_preserved h b, hd]
  | seek pos =>
    show ((InputHandle.try_seek ops h pos).1).did_unhandled_seek = true
    rw [try_seek_fst]
    simpa using seekUpdate_dus_mono h pos hd
  | getSize => show ((InputHandle.get_size ops h).1).did_unhandled_seek = true
               rw [get_size_fst_preserved ops h, hd]

theorem runOps_dus_mono (ops : StreamOps σ) : ∀ (l : List HandleOp) (h : InputHandle σ),
    h.did_unhandled_seek = true → (runOps ops h l).did_unhandled_seek = true := by
  intro l
  induction l with
  | nil => intro h hd; exact hd
  | cons op l ih =>
    intro h hd
    exact ih (applyOp ops h op) (applyOp_dus_mono ops h op hd)

/-- The invariant of a sequence of reads on a handle with no pending
pushback byte and writable provenance: the digest grows by exactly the
delivered bytes, the pushback slot stays empty, the seek flag and the name
are untouched, and `ever_read` ends up set as soon as one read call was
made. -/
theorem runReads_inv (ops : StreamOps σ) :
    ∀ (ns : List Nat) (h : InputHandle σ),
      h.ungetc_char = none → h.read_only = false →
      (runReads ops h ns).1.name = h.name ∧
      (runReads ops h ns).1.digest = h.digest ++ (runReads ops h ns).2 ∧
      (runReads ops h ns).1.ungetc_char = none ∧
      (runReads ops h ns).1.read_only = false ∧
      (runReads ops h ns).1.did_unhandled_seek = h.did_unhandled_seek ∧
      (runReads ops h ns).1.ever_read = (h.ever_read || !ns.isEmpty) := by
  intro ns
  induction ns with
  | nil =>
    intro h hu hro
    refine ⟨rfl, by simp [runReads], hu, hro, rfl, by simp [runReads]⟩
  | cons n ns ih =>
    intro h hu hro
    have hro' : ¬(h.read_only = true) := by simp [hro]
    rcases hr : ops.read h.inner n with ⟨s2, r⟩
    cases r with
    | ok bs =>
      have hread := read_none ops h n hu
      rw [readNoUngetc_ok ops h n s2 bs hr, if_neg hro'] at hread
      rcases hp : runReads ops { h with ever_read := true, inner := s2, digest := h.digest ++ bs } ns with ⟨h2, ds⟩
      have hstep : runReads ops h (n :: ns) = (h2, bs ++ ds) := by
        simp only [runReads, hread, hp]
      have ihh := ih { h with ever_read := true, inner := s2, digest := h.digest ++ bs } hu hro
      rw [hp] at ihh
      obtain ⟨i1, i2, i3, i4, i5, i6⟩ := ihh
      rw [hstep]
      refine ⟨by simpa using i1, ?_, i3, i4, by simpa using i5, ?_⟩
      · show h2.digest = h.digest ++ (bs ++ ds)
        rw [← List.append_assoc]
        simpa using i2
      · show h2.ever_read = (h.ever_read || !(n :: ns).isEmpty)
        simp only [List.isEmpty_cons, Bool.not_false, Bool.or_true]
        simpa using i6
    | error e =>
      have hread := read_none ops h n hu
      rw [readNoUngetc_err ops h n s2 e hr] at hread
      rcases hp : runReads ops { h with ever_read := true, inner := s2 } ns with ⟨h2, ds⟩
      have hstep : runReads ops h (n :: ns) = (h2, ds) := by
        simp only [runReads, hread, hp]
      have ihh := ih { h with ever_read := true, inner := s2 } hu hro
      rw [hp] at ihh
      obtain ⟨i1, i2, i3, i4, i5, i6⟩ := ihh
      rw [hstep]
      refine ⟨by simpa using i1, by simpa using i2, i3, i4, by simpa using i5, ?_⟩
      show h2.ever_read = (h.ever_read || !(n :: ns).isEmpty)
      simp only [List.isEmpty_cons, Bool.not_false, Bool.or_true]
      simpa using i6

/- ===================== claims : digest codec & normalizer ===================== -/

/-- C4: for every byte sequence `b`, `bytes_to_hex b` has length exactly
`2 * len b`, and `hex_to_bytes` applied to it with a destination buffer of
length `len b` succeeds and writes back exactly `b`. -/
theorem hex_round_trip :
    ∀ (b dest : List Nat), (∀ x ∈ b, x < 256) → dest.length = b.length →
      (bytes_to_hex b).length = 2 * b.length ∧
      hex_to_bytes (bytes_to_hex b) dest = (Except.ok (), b) := by
  intro b dest hall hlen
  refine ⟨bytes_to_hex_length b, ?_⟩
  have hlen2 : (bytes_to_hex b).length = 2 * dest.length := by
    rw [bytes_to_hex_length, hlen]
  unfold hex_to_bytes
  rw [if_neg (not_not_intro hlen2)]
  exact hexWriteLoop_roundtrip b dest hall hlen

/-- Witness for C4 at `b = [0, 171, 255]`. -/
theorem hex_round_trip_witness :
    ((∀ x ∈ ([0, 171, 255] : List Nat), x < 256) ∧
      ([9, 9, 9] : List Nat).length = ([0, 171, 255] : List Nat).length) ∧
    ((bytes_to_hex [0, 171, 255]).length = 2 * ([0, 171, 255] : List Nat).length ∧
      hex_to_bytes (bytes_to_hex [0, 171, 255]) [9, 9, 9] = (Except.ok (), [0, 171, 255])) :=
  ⟨⟨by decide, by decide⟩, hex_round_trip [0, 171, 255] [9, 9, 9] (by decide) (by decide)⟩

/-- C7 counterexample: the text `"+f"` contains the non-hex character `+`,
yet decoding into a 1-byte buffer succeeds (with value 15), because
`u8::from_str_radix` accepts a leading plus sign in each 2-character
group.  So "fails ... whenever the text contains a non-hex character" is
false as stated. -/
theorem hex_decode_plus_counterexample :
    hexDigitVal '+' = none ∧
    '+' ∈ String.toList "+f" ∧
    (String.toList "+f").length = 2 * ([0] : List Nat).length ∧
    hex_to_bytes (String.toList "+f") [0] = (Except.ok (), [15]) := by decide

/-- C7 amended: with a destination of length `n`, decode fails with the
length-mismatch error — writing nothing — whenever the text length is not
exactly `2 * n`; when the length matches, it fails with the
malformed-digit parse error exactly when some aligned 2-character group is
rejected by `u8::from_str_radix` (two hex digits are accepted, and so is a
leading `+` sign followed by a hex digit). -/
theorem hex_decode_errors_amended :
    ∀ (text : List Char) (dest : List Nat),
      (text.length ≠ 2 * dest.length →
        hex_to_bytes text dest =
          (Except.error (HexError.badLength (2 * dest.length) text.length), dest)) ∧
      (text.length = 2 * dest.length →
        (hex_to_bytes text dest).1 =
          (if (chunkPairs text).any (fun p => (fromStrRadix16U8 [p.1, p.2]).isNone) then
            Except.error HexError.parseInt
          else Except.ok ())) := by
  intro text dest
  constructor
  · intro hne
    unfold hex_to_bytes
    rw [if_pos hne]
  · intro heq
    unfold hex_to_bytes
    rw [if_neg (not_not_intro heq)]
    exact hexWriteLoop_result dest text heq

/-- Witness for C7 at a wrong-length text and a bad-digit text. -/
theorem hex_decode_errors_amended_witness :
    ((String.toList "abc").length ≠ 2 * ([0] : List Nat).length ∧
      hex_to_bytes (String.toList "abc") [0] =
        (Except.error (HexError.badLength (2 * ([0] : List Nat).length)
          (String.toList "abc").length), [0])) ∧
    ((String.toList "0g").length = 2 * ([7] : List Nat).length ∧
      (hex_to_bytes (String.toList "0g") [7]).1 = Except.error HexError.parseInt) := by
  refine ⟨⟨by decide, ?_⟩, ⟨by decide, ?_⟩⟩
  · exact (hex_decode_errors_amended (String.toList "abc") [0]).1 (by decide)
  · rw [(hex_decode_errors_amended (String.toList "0g") [7]).2 (by decide)]
    decide

/-- C5: the eight literal normalization cases from the specification. -/
theorem normalize_literal_cases :
    try_normalize_tex_path (String.toList "") = some (String.toList "") ∧
    try_normalize_tex_path (String.toList "/") = some (String.toList "/") ∧
    try_normalize_tex_path (String.toList "//") = some (String.toList "/") ∧
    try_normalize_tex_path (String.toList ".") = some (String.toList ".") ∧
    try_normalize_tex_path (String.toList "./my///path/././file.txt") =
      some (String.toList "my/path/file.txt") ∧
    try_normalize_tex_path (String.toList "./../my/../../../file.txt") =
      some (String.toList "../../../file.txt") ∧
    try_normalize_tex_path (String.toList "./my/.././/path/../../here//file.txt") =
      some (String.toList "../here/file.txt") ∧
    try_normalize_tex_path (String.toList "/my/../../file.txt") = none := by
  decide

/-- C9 counterexample: the input `".."` consists only of dot segments and
separators, is nonempty and has no leading root, yet it normalizes to
`".."`, not `"."` — a lone `..` survives as a leading go-up segment. -/
theorem normalize_dotdot_counterexample :
    (∀ s ∈ splitSlash (String.toList ".."),
        s = [] ∨ s = String.toList "." ∨ s = String.toList "..") ∧
    (splitSlash (String.toList "..")).head? ≠ some [] ∧
    String.toList ".." ≠ [] ∧
    try_normalize_tex_path (String.toList "..") = some (String.toList "..") ∧
    try_normalize_tex_path (String.toList "..") ≠ some (String.toList ".") := by
  decide

/-- C9 amended: a nonempty input whose segments are all empty or `.` (no
`..` segments) and whose first segment is nonempty (no leading root)
normalizes to `.`; the empty input normalizes to itself. -/
theorem normalize_dots_only_amended :
    (∀ (path : List Char), path ≠ [] →
      (splitSlash path).head? ≠ some [] →
      (∀ s ∈ splitSlash path, s = [] ∨ s = ['.']) →
      try_normalize_tex_path path = some (String.toList ".")) ∧
    try_normalize_tex_path [] = some [] := by
  constructor
  · intro path hne hhead hall
    unfold try_normalize_tex_path
    rw [if_neg hne]
    rcases hs : splitSlash path with _ | ⟨s0, rest⟩
    · rfl
    · have hs0 : s0 = [] ∨ s0 = ['.'] := by
        rw [hs] at hall
        exact hall s0 (List.mem_cons_self s0 rest)
      have hs0ne : s0 ≠ [] := by
        rw [hs] at hhead
        simpa using hhead
      have hs0dot : s0 = ['.'] := hs0.resolve_left hs0ne
      subst hs0dot
      have hstep : normLoop (['.'] :: rest) 0 [] 0 false = normLoop rest 1 [] 0 false := by
        conv_lhs => unfold normLoop
        rw [if_neg (by rintro ⟨h0, -⟩; exact absurd h0 (by decide)), if_pos (Or.inr rfl)]
      rw [hstep, normLoop_dots rest 0 (by
        rw [hs] at hall
        exact fun s hsm => hall s (List.mem_cons_of_mem _ hsm))]
      rfl
  · rfl

/-- Witness for C9 at the input `"././/./"`. -/
theorem normalize_dots_only_amended_witness :
    (String.toList "././/./" ≠ [] ∧
      (splitSlash (String.toList "././/./")).head? ≠ some [] ∧
      (∀ s ∈ splitSlash (String.toList "././/./"), s = [] ∨ s = ['.'])) ∧
    try_normalize_tex_path (String.toList "././/./") = some (String.toList ".") :=
  ⟨⟨by decide, by decide, by decide⟩,
    normalize_dots_only_amended.1 (String.toList "././/./") (by decide) (by decide) (by decide)⟩

/- ===================== claims : handle consumption ===================== -/

/-- C1: consuming an `InputHandle` yields its name, together with the
finalized fingerprint exactly when `ever_read` is set, no unhandled seek
happened and the handle is not read-only; and a handle opened and consumed
without any read yields no fingerprint. -/
theorem into_name_digest_fingerprint :
    (∀ (σ : Type) (h : InputHandle σ),
      InputHandle.into_name_digest h =
        (h.name,
          if h.ever_read = true ∧ h.did_unhandled_seek = false ∧ h.read_only = false then
            some h.digest
          else none)) ∧
    (∀ (σ : Type) (name : String) (inner : σ) (origin : InputOrigin),
      InputHandle.into_name_digest (InputHandle.new name inner origin) = (name, none)) := by
  constructor
  · intro σ h
    rcases h with ⟨nm, inn, ro, dg, og, er, dus, ug⟩
    unfold InputHandle.into_name_digest
    cases ro <;> cases er <;> cases dus <;> simp
  · intro σ name inner origin
    rfl

/- ===================== claims : IoProvider defaults ===================== -/

/-- C6 counterexample: `write_format` is a method of the trait whose
default implementation returns a cannot-save-formats error — not the
not-available open result (its return type cannot even express
not-available).  So "every method has a default that returns
not-available" is false as stated. -/
theorem write_format_default_counterexample :
    ((defaultedProvider Unit Unit Unit).write_format () "fmt" []).2 =
      Except.error IoErr.cannotSaveFormats ∧
    ((defaultedProvider Unit Unit Unit).write_format () "fmt" []).2 ≠ Except.ok () := by
  decide

/-- C6 amended: the four basic open methods default to not-available;
`input_open_format` defaults to delegating to `input_open_name`, so a
backend implementing nothing answers not-available there too; and
`write_format` defaults to a cannot-save-formats error rather than a
not-available result. -/
theorem ioprovider_defaults_amended :
    ∀ (π ι ω : Type) (p : π) (n : String) (d : List Nat),
      ((defaultedProvider π ι ω).output_open_name p n).2 = OpenResult.notAvailable ∧
      ((defaultedProvider π ι ω).output_open_stdout p).2 = OpenResult.notAvailable ∧
      ((defaultedProvider π ι ω).input_open_name p n).2 = OpenResult.notAvailable ∧
      ((defaultedProvider π ι ω).input_open_primary p).2 = OpenResult.notAvailable ∧
      ((defaultedProvider π ι ω).input_open_format p n).2 = OpenResult.notAvailable ∧
      ((defaultedProvider π ι ω).write_format p n d).2 =
        Except.error IoErr.cannotSaveFormats :=
  fun _ _ _ _ _ _ => ⟨rfl, rfl, rfl, rfl, rfl, rfl⟩

/- ===================== claims : handle state machine ===================== -/

/-- C2: seeking to absolute offset 0 resets the digest accumulator, clears
`ever_read` and discards any pending pushback byte; consequently, for every
underlying byte source, reading some bytes from a fresh handle, seeking to
absolute 0 and reading again yields a consumed fingerprint equal to the
fingerprint of exactly the bytes delivered after the rewind. -/
theorem seek_to_zero_recovery :
    (∀ (σ : Type) (ops : StreamOps σ) (h : InputHandle σ),
      ((InputHandle.try_seek ops h (SeekFrom.start 0)).1).digest = [] ∧
      ((InputHandle.try_seek ops h (SeekFrom.start 0)).1).ever_read = false ∧
      ((InputHandle.try_seek ops h (SeekFrom.start 0)).1).ungetc_char = none) ∧
    (∀ (σ : Type) (ops : StreamOps σ) (name : String) (inner : σ)
      (origin : InputOrigin) (ns1 ns2 : List Nat),
      ns2 ≠ [] →
      InputHandle.into_name_digest
        (runReads ops ((InputHandle.try_seek ops
          (runReads ops (InputHandle.new name inner origin) ns1).1
          (SeekFrom.start 0)).1) ns2).1 =
      (name, some (runReads ops ((InputHandle.try_seek ops
          (runReads ops (InputHandle.new name inner origin) ns1).1
          (SeekFrom.start 0)).1) ns2).2)) := by
  constructor
  · intro σ ops h
    rw [try_seek_fst, seekUpdate_start_zero]
    exact ⟨rfl, rfl, rfl⟩
  · intro σ ops name inner origin ns1 ns2 hns2
    set h0 := InputHandle.new name inner origin with hh0
    obtain ⟨p1name, p1dig, p1ug, p1ro, p1dus, p1er⟩ := runReads_inv ops ns1 h0 rfl rfl
    set h1 := (runReads ops h0 ns1).1 with hh1
    set h2 := (InputHandle.try_seek ops h1 (SeekFrom.start 0)).1 with hh2
    have h2eq : h2 = { seekUpdate h1 (SeekFrom.start 0) with inner := (ops.seek h1.inner (SeekFrom.start 0)).1 } :=
      try_seek_fst ops h1 (SeekFrom.start 0)
    have h2ug : h2.ungetc_char = none := by rw [h2eq, seekUpdate_start_zero]
    have h2ro : h2.read_only = false := by rw [h2eq, seekUpdate_start_zero]; exact p1ro
    have h2dig : h2.digest = [] := by rw [h2eq, seekUpdate_start_zero]
    have h2er : h2.ever_read = false := by rw [h2eq, seekUpdate_start_zero]
    have h2dus : h2.did_unhandled_seek = false := by
      rw [h2eq, seekUpdate_start_zero]
      show h1.did_unhandled_seek = false
      rw [p1dus]
      rfl
    have h2name : h2.name = name := by
      rw [h2eq, seekUpdate_start_zero]
      show h1.name = name
      rw [p1name]
      rfl
    obtain ⟨q1, q2, q3, q4, q5, q6⟩ := runReads_inv ops ns2 h2 h2ug h2ro
    have hemp : ns2.isEmpty = false := by
      cases ns2 with
      | nil => exact absurd rfl hns2
      | cons a l => rfl
    unfold InputHandle.into_name_digest
    rw [q5, h2dus, q4, q6, h2er, hemp]
    simp only [Bool.or_false, Bool.false_or, Bool.not_false, Bool.or_true, Bool.not_true]
    rw [if_neg (by simp)]
    rw [q1, h2name, q2, h2dig]
    rfl

/-- Witness for C2: cursor over `[1, 2, 3]`, read 2 bytes, rewind to 0,
read everything; the consumed fingerprint is that of `[1, 2, 3]` alone. -/
theorem seek_to_zero_recovery_witness :
    (([4] : List Nat) ≠ []) ∧
    InputHandle.into_name_digest
      (runReads cursorOps ((InputHandle.try_seek cursorOps
        (runReads cursorOps (InputHandle.new "f" (([1, 2, 3], 0) : List Nat × Nat) InputOrigin.other) [2]).1
        (SeekFrom.start 0)).1) [4]).1 =
    ("f", some [1, 2, 3]) :=
  ⟨by decide,
    seek_to_zero_recovery.2 (List Nat × Nat) cursorOps "f" ([1, 2, 3], 0) InputOrigin.other
      [2] [4] (by decide)⟩

/-- C3: a `Current(0)` seek changes none of the digest bookkeeping and
keeps the pending pushback byte; any seek other than `Start(0)` and
`Current(0)` sets `did_unhandled_seek` and discards the pushback byte; and
once `did_unhandled_seek` is set, no sequence of further operations clears
it, so such a handle is always consumed without a fingerprint. -/
theorem seek_invalidation_permanent :
    (∀ (σ : Type) (ops : StreamOps σ) (h : InputHandle σ),
      ((InputHandle.try_seek ops h (SeekFrom.current 0)).1).digest = h.digest ∧
      ((InputHandle.try_seek ops h (SeekFrom.current 0)).1).ever_read = h.ever_read ∧
      ((InputHandle.try_seek ops h (SeekFrom.current 0)).1).did_unhandled_seek =
        h.did_unhandled_seek ∧
      ((InputHandle.try_seek ops h (SeekFrom.current 0)).1).ungetc_char = h.ungetc_char) ∧
    (∀ (σ : Type) (ops : StreamOps σ) (h : InputHandle σ) (pos : SeekFrom),
      pos ≠ SeekFrom.start 0 → pos ≠ SeekFrom.current 0 →
      ((InputHandle.try_seek ops h pos).1).did_unhandled_seek = true ∧
      ((InputHandle.try_seek ops h pos).1).ungetc_char = none) ∧
    (∀ (σ : Type) (ops : StreamOps σ) (h : InputHandle σ) (l : List HandleOp),
      h.did_unhandled_seek = true →
      (runOps ops h l).did_unhandled_seek = true ∧
      (InputHandle.into_name_digest (runOps ops h l)).2 = none) := by
  refine ⟨?_, ?_, ?_⟩
  · intro σ ops h
    rw [try_seek_fst, seekUpdate_current_zero]
    exact ⟨rfl, rfl, rfl, rfl⟩
  · intro σ ops h pos hp1 hp2
    rw [try_seek_fst, seekUpdate_other h pos hp1 hp2]
    exact ⟨rfl, rfl⟩
  · intro σ ops h l hd
    have hds := runOps_dus_mono ops l h hd
    refine ⟨hds, ?_⟩
    unfold InputHandle.into_name_digest
    rw [hds]
    simp

/-- Witness for C3: a handle that already did an unhandled seek keeps the
flag across a further `getc` and is consumed without a fingerprint. -/
theorem seek_invalidation_permanent_witness :
    (({ InputHandle.new "f" (([3, 4], 0) : List Nat × Nat) InputOrigin.other with did_unhandled_seek := true, ever_read := true } : InputHandle (List Nat × Nat)).did_unhandled_seek = true) ∧
    ((runOps cursorOps { InputHandle.new "f" (([3, 4], 0) : List Nat × Nat) InputOrigin.other with did_unhandled_seek := true, ever_read := true } [HandleOp.getc]).did_unhandled_seek = true ∧
      (InputHandle.into_name_digest (runOps cursorOps { InputHandle.new "f" (([3, 4], 0) : List Nat × Nat) InputOrigin.other with did_unhandled_seek := true, ever_read := true } [HandleOp.getc])).2 = none) :=
  ⟨rfl,
    seek_invalidation_permanent.2.2 (List Nat × Nat) cursorOps
      { InputHandle.new "f" (([3, 4], 0) : List Nat × Nat) InputOrigin.other with did_unhandled_seek := true, ever_read := true }
      [HandleOp.getc] rfl⟩

/-- C8: in a `try_seek` call, after delegating to the underlying source,
if a pushback byte is still pending then the reported offset is the
underlying offset decremented by one, as unsigned 64-bit subtraction. -/
theorem seek_pushback_offset_decrement :
    ∀ (σ : Type) (ops : StreamOps σ) (h : InputHandle σ) (pos : SeekFrom) (s2 : σ) (off : Nat),
      (seekUpdate h pos).ungetc_char.isSome = true →
      ops.seek h.inner pos = (s2, Except.ok off) →
      off < 2 ^ 64 →
      (InputHandle.try_seek ops h pos).2 =
        Except.ok (if off = 0 then 2 ^ 64 - 1 else off - 1) := by
  intro σ ops h pos s2 off hpend hseek hoff
  have harith : (off + (2 ^ 64 - 1)) % 2 ^ 64 = if off = 0 then 2 ^ 64 - 1 else off - 1 := by
    have hN : (2 : Nat) ^ 64 = 18446744073709551616 := by norm_num
    rw [hN] at hoff ⊢
    split_ifs with h0 <;> omega
  simp only [InputHandle.try_seek, seekUpdate_inner, hseek, hpend, if_true]
  rw [harith]

/-- Witness for C8: cursor at position 3 with a pending pushback byte; a
`Current(0)` position query reports offset 2. -/
theorem seek_pushback_offset_decrement_witness :
    ((seekUpdate ({ InputHandle.new "f" (([5, 6, 7], 3) : List Nat × Nat) InputOrigin.other with ungetc_char := some 9 } : InputHandle (List Nat × Nat)) (SeekFrom.current 0)).ungetc_char.isSome = true ∧
      cursorOps.seek (([5, 6, 7], 3) : List Nat × Nat) (SeekFrom.current 0) = (([5, 6, 7], 3), Except.ok 3) ∧
      3 < 2 ^ 64) ∧
    (InputHandle.try_seek cursorOps ({ InputHandle.new "f" (([5, 6, 7], 3) : List Nat × Nat) InputOrigin.other with ungetc_char := some 9 } : InputHandle (List Nat × Nat)) (SeekFrom.current 0)).2 = Except.ok 2 :=
  ⟨⟨by decide, by decide, by decide⟩,
    seek_pushback_offset_decrement (List Nat × Nat) cursorOps
      { InputHandle.new "f" (([5, 6, 7], 3) : List Nat × Nat) InputOrigin.other with ungetc_char := some 9 }
      (SeekFrom.current 0) ([5, 6, 7], 3) 3 (by decide) (by decide) (by decide)⟩

/-- C10: a read with an empty buffer returns zero bytes, leaves the
pushback slot and the digest untouched, but still sets `ever_read`; so a
fresh handle whose only operation was one empty-buffer read is consumed
with the fingerprint of nothing, not an absent fingerprint. -/
theorem empty_read_fingerprint_of_nothing :
    (∀ (σ : Type) (ops : StreamOps σ) (h : InputHandle σ) (s2 : σ) (bs : List Nat),
      ops.read h.inner 0 = (s2, Except.ok bs) →
      InputHandle.read ops h 0 = ({ h with ever_read := true, inner := s2 }, Except.ok [])) ∧
    (∀ (σ : Type) (ops : StreamOps σ) (name : String) (inner : σ)
      (origin : InputOrigin) (s2 : σ) (bs : List Nat),
      ops.read inner 0 = (s2, Except.ok bs) →
      InputHandle.into_name_digest
          (InputHandle.read ops (InputHandle.new name inner origin) 0).1 =
        (name, some fastDigestOfNothing)) := by
  constructor
  · intro σ ops h s2 bs hr
    have hbs : bs = [] :=
      List.eq_nil_of_length_eq_zero (Nat.le_zero.mp (ops.read_le h.inner 0 s2 bs hr))
    subst hbs
    rw [read_zero, readNoUngetc_ok ops h 0 s2 [] hr]
    simp
  · intro σ ops name inner origin s2 bs hr
    have hbs : bs = [] :=
      List.eq_nil_of_length_eq_zero (Nat.le_zero.mp (ops.read_le inner 0 s2 bs hr))
    subst hbs
    have hr' : ops.read (InputHandle.new name inner origin).inner 0 = (s2, Except.ok []) := hr
    rw [read_zero, readNoUngetc_ok ops (InputHandle.new name inner origin) 0 s2 [] hr']
    simp [InputHandle.new, InputHandle.into_name_digest, fastDigestOfNothing]

/-- Witness for C10 at a cursor over `[1, 2]`. -/
theorem empty_read_fingerprint_of_nothing_witness :
    cursorOps.read (([1, 2], 0) : List Nat × Nat) 0 = (([1, 2], 0), Except.ok []) ∧
    InputHandle.into_name_digest
        (InputHandle.read cursorOps
          (InputHandle.new "f" (([1, 2], 0) : List Nat × Nat) InputOrigin.filesystem) 0).1 =
      ("f", some fastDigestOfNothing) :=
  ⟨rfl,
    empty_read_fingerprint_of_nothing.2 (List Nat × Nat) cursorOps "f" ([1, 2], 0)
      InputOrigin.filesystem ([1, 2], 0) [] rfl⟩

